import Mathlib

/-!
Verification development for the Texas legal data pipeline
(`texas_data_crawler.js`, the single-source crawler `TexasDataCrawler`, and
the multi-source crawler `TexasMultiSourceCrawler`).

The JavaScript source is shallowly embedded: pure functions become Lean
functions over explicit data; network calls are modelled by passing their
outcome (`Except` for calls that may reject) as an argument; the stateful
CDP (Chrome DevTools Protocol) websocket client becomes a state machine
driven by an explicit trace of send/receive events.  JS numbers that are
only ever non-negative integers in the source are modelled as `Nat` (or
`Int` where signedness matters); JS strings as `String` (JS
`toLowerCase`/`includes` are modelled character-wise, which agrees with the
source on the ASCII data the crawler handles).
-/

namespace TexasPipeline

/-- JS `String.prototype.includes`: `containsStr text kw = true` iff `kw`
occurs in `text` as a contiguous substring. -/
def containsStr (text kw : String) : Bool :=
  substrAux kw.toList text.toList
where
  /-- Bool test that `needle` is an infix of `hay` (checked at every
  suffix of `hay`). -/
  substrAux (needle : List Char) : List Char → Bool
    | [] => needle.isEmpty
    | c :: rest => needle.isPrefixOf (c :: rest) || substrAux needle rest

/-- JS `String.prototype.toLowerCase`, modelled character-wise. -/
def lowerStr (s : String) : String :=
  String.mk (s.toList.map Char.toLower)

/-- A harvested catalog record, as built by `discoverDatasetsViaAPI`
(single-source crawler) / `crawlSocrata` (multi-source crawler) from one
Socrata listing item.  Constant derived fields (`url`, `apiUrl`, `source`,
`sourceType`, `createdAt`, `updatedAt`, `displayType`) play no role in any
claim and are omitted. -/
structure Dataset where
  id : String
  name : String
  description : String
  category : String
  tags : List String
  viewCount : Nat
  downloadCount : Nat

/-- `generateQualityScores` per-record score (identical arithmetic in both
crawlers): base 50; `+15` if the description is truthy and longer than 100;
`+10` more if longer than 300; `+10` if `viewCount > 100`; `+10` if
`downloadCount > 50`; `+5` if there is at least one tag (a JS array is
always truthy, so the `ds.tags &&` guard reduces to the length test);
finally `Math.min(100, score)`. -/
def qualityScore (ds : Dataset) : Int :=
  let s0 : Int := 50
  let s1 : Int := if ds.description ≠ "" ∧ 100 < ds.description.length then s0 + 15 else s0
  let s2 : Int := if ds.description ≠ "" ∧ 300 < ds.description.length then s1 + 10 else s1
  let s3 : Int := if 100 < ds.viewCount then s2 + 10 else s2
  let s4 : Int := if 50 < ds.downloadCount then s3 + 10 else s3
  let s5 : Int := if 0 < ds.tags.length then s4 + 5 else s4
  min 100 s5

theorem desc_ne_empty_of_len {s : String} (h : 100 < s.length) : s ≠ "" := by
  intro he
  rw [he] at h
  exact absurd h (by decide)

/-- The truthiness guard on the description is redundant once the length
test holds, so the score is the guard-free sum, capped at 100. -/
theorem qualityScore_eq (ds : Dataset) :
    qualityScore ds =
      min 100 (50 + (if 100 < ds.description.length then (15 : Int) else 0)
        + (if 300 < ds.description.length then (10 : Int) else 0)
        + (if 100 < ds.viewCount then (10 : Int) else 0)
        + (if 50 < ds.downloadCount then (10 : Int) else 0)
        + (if 0 < ds.tags.length then (5 : Int) else 0)) := by
  unfold qualityScore
  by_cases h1 : 100 < ds.description.length
  · have hne : ds.description ≠ "" := desc_ne_empty_of_len h1
    simp only [ne_eq, hne, not_false_iff, true_and, h1, if_true, min_def]
    split_ifs <;> omega
  · have h2 : ¬ 300 < ds.description.length := by omega
    simp only [h1, h2, and_false, if_false, if_neg, false_and, min_def]
    split_ifs <;> omega

/-- C3: for every record the quality score is base 50 plus the additive
bonuses capped at 100, hence lies in `[0, 100]`; and a record with a
400-character description scores exactly 25 more than the otherwise
identical record with an empty description. -/
theorem c3_qualityScore (ds : Dataset) :
    0 ≤ qualityScore ds ∧ qualityScore ds ≤ 100 ∧
      (ds.description.length = 400 →
        qualityScore ds = qualityScore { ds with description := "" } + 25) := by
  refine ⟨?_, ?_, ?_⟩
  · rw [qualityScore_eq]
    simp only [ min_def]
    split_ifs <;> omega
  · rw [qualityScore_eq]
    simp only [ min_def]
    split_ifs <;> omega
  · intro h
    have hq1 := qualityScore_eq ds
    have hq2 := qualityScore_eq { ds with description := "" }
    simp only [show ({ ds with description := "" } : Dataset).description = "" from rfl,
      show ({ ds with description := "" } : Dataset).viewCount = ds.viewCount from rfl,
      show ({ ds with description := "" } : Dataset).downloadCount = ds.downloadCount from rfl,
      show ({ ds with description := "" } : Dataset).tags = ds.tags from rfl,
      show ¬ (100 < ("" : String).length) from by decide,
      show ¬ (300 < ("" : String).length) from by decide, if_false, if_neg,
      not_false_iff] at hq2
    rw [hq1, hq2, h]
    simp only [show (100 < 400) from by omega, show (300 < 400) from by omega, if_true,
      min_def]
    split_ifs <;> omega

/-- A 400-character description. -/
def longDesc : String := String.mk (List.replicate 400 'a')

/-- A concrete record carrying a 400-character description. -/
def dsLong : Dataset :=
  { id := "abcd-0001", name := "Court Records", description := longDesc,
    category := "Public Safety", tags := [], viewCount := 0, downloadCount := 0 }

theorem c3_qualityScore_witness :
    dsLong.description.length = 400 ∧
      qualityScore dsLong = qualityScore { dsLong with description := "" } + 25 := by
  have hlen : dsLong.description.length = 400 := by
    show (List.replicate 400 'a').length = 400
    exact List.length_replicate ..
  exact ⟨hlen, (c3_qualityScore dsLong).2.2 hlen⟩

/-- C10: the base score 50 is a lower bound (all adjustments are
non-negative), so the attainable range is `[50, 100]`; and the cap 100 is
attained exactly when every bonus applies. -/
theorem c10_scoreRange (ds : Dataset) :
    50 ≤ qualityScore ds ∧
      (qualityScore ds = 100 ↔
        (100 < ds.description.length ∧ 300 < ds.description.length ∧
          100 < ds.viewCount ∧ 50 < ds.downloadCount ∧ 0 < ds.tags.length)) := by
  rw [qualityScore_eq]
  simp only [ min_def]
  constructor
  · split_ifs <;> omega
  · split_ifs <;> omega

/-- The single-source crawler's `legalKeywords` list (`filterLegalDatasets`
in `TexasDataCrawler`), reproduced verbatim. -/
def relevanceKeywordsTDC : List String :=
  ["legal", "law", "court", "attorney", "license", "permit",
   "regulation", "statute", "crime", "criminal", "justice",
   "violation", "penalty", "fine", "compliance", "regulatory",
   "insurance", "tdi", "txdps", "bar", "lawyer", "filing",
   "case", "judge", "prosecutor", "defense", "litigation",
   "tarrant", "harris", "dallas", "travis", "bexar"]

/-- The multi-source crawler's extended `legalKeywords` list
(`filterLegalDatasets` in `TexasMultiSourceCrawler`), reproduced
verbatim. -/
def relevanceKeywordsMulti : List String :=
  relevanceKeywordsTDC ++
  ["bell", "child", "abuse", "neglect", "prison", "release", "inmate",
   "tdcj", "tdlr", "bill", "legislation", "session"]

/-- Single-source relevance text: lowercased
`name description category tags-joined-by-space` (JS template literal). -/
def relevanceTextTDC (ds : Dataset) : String :=
  lowerStr (ds.name ++ " " ++ ds.description ++ " " ++ ds.category ++ " "
    ++ String.intercalate " " ds.tags)

/-- Multi-source relevance text: lowercased `name description` only. -/
def relevanceTextMulti (ds : Dataset) : String :=
  lowerStr (ds.name ++ " " ++ ds.description)

/-- Single-source relevance filter predicate
(`legalKeywords.some(kw => text.includes(kw))`). -/
def isRelevantTDC (ds : Dataset) : Bool :=
  relevanceKeywordsTDC.any fun kw => containsStr (relevanceTextTDC ds) kw

/-- Multi-source relevance filter predicate. -/
def isRelevantMulti (ds : Dataset) : Bool :=
  relevanceKeywordsMulti.any fun kw => containsStr (relevanceTextMulti ds) kw

/-- The three mutually exclusive categories. -/
inductive Category : Type where
  | LAW_VERIFICATION : Category
  | NEWS : Category
  | ATTORNEY_RESOURCE : Category
deriving DecidableEq

/-- Classification text (both crawlers): lowercased `name description`. -/
def classText (ds : Dataset) : String :=
  lowerStr (ds.name ++ " " ++ ds.description)

/-- Priority-1 keyword test of the single-source crawler's categorize loop
(the `text.includes('court') || ...` chain). -/
def lawMatchTDC (text : String) : Bool :=
  ["court", "case", "filing", "criminal", "prosecution", "dps",
   "crime", "violation", "penalty"].any fun kw => containsStr text kw

/-- Priority-1 keyword test of the multi-source crawler's categorize loop
(the single-source chain extended by prison/inmate/release/statute/penal
code). -/
def lawMatchMulti (text : String) : Bool :=
  ["court", "case", "filing", "criminal", "prosecution", "dps",
   "crime", "violation", "penalty", "prison", "inmate", "release",
   "statute", "penal code"].any fun kw => containsStr text kw

/-- Priority-2 keyword test (identical in both crawlers). -/
def newsMatch (text : String) : Bool :=
  ["news", "report", "press", "publication", "announcement"].any
    fun kw => containsStr text kw

/-- Priority-3 keyword test (identical in both crawlers). -/
def attorneyMatch (text : String) : Bool :=
  ["attorney", "lawyer", "license", "bar", "permit", "compliance"].any
    fun kw => containsStr text kw

/-- Single-source category assignment: first-match-wins if/else chain with
`LAW_VERIFICATION` as the fallback branch. -/
def classifyTDC (ds : Dataset) : Category :=
  let text := classText ds
  if lawMatchTDC text then .LAW_VERIFICATION
  else if newsMatch text then .NEWS
  else if attorneyMatch text then .ATTORNEY_RESOURCE
  else .LAW_VERIFICATION

/-- Multi-source category assignment (same chain, extended priority-1
list). -/
def classifyMulti (ds : Dataset) : Category :=
  let text := classText ds
  if lawMatchMulti text then .LAW_VERIFICATION
  else if newsMatch text then .NEWS
  else if attorneyMatch text then .ATTORNEY_RESOURCE
  else .LAW_VERIFICATION

/-- The three category buckets built by the categorize loop. -/
structure Categorized where
  LAW_VERIFICATION : List Dataset
  NEWS : List Dataset
  ATTORNEY_RESOURCE : List Dataset

def emptyCategorized : Categorized := ⟨[], [], []⟩

/-- One `forEach` iteration of the categorize loop: push the record into
the single bucket selected by the classifier. -/
def pushCategory (classify : Dataset → Category) (c : Categorized) (ds : Dataset) :
    Categorized :=
  match classify ds with
  | .LAW_VERIFICATION => { c with LAW_VERIFICATION := c.LAW_VERIFICATION ++ [ds] }
  | .NEWS => { c with NEWS := c.NEWS ++ [ds] }
  | .ATTORNEY_RESOURCE => { c with ATTORNEY_RESOURCE := c.ATTORNEY_RESOURCE ++ [ds] }

def categorizeWith (classify : Dataset → Category) (l : List Dataset) : Categorized :=
  l.foldl (pushCategory classify) emptyCategorized

/-- `TexasDataCrawler.filterLegalDatasets`: relevance-filter the records,
then categorize the survivors. -/
def filterLegalDatasetsTDC (datasets : List Dataset) : Categorized :=
  categorizeWith classifyTDC (datasets.filter fun ds => isRelevantTDC ds)

/-- `TexasMultiSourceCrawler.filterLegalDatasets`. -/
def filterLegalDatasetsMulti (datasets : List Dataset) : Categorized :=
  categorizeWith classifyMulti (datasets.filter fun ds => isRelevantMulti ds)

theorem mem_categorize_LV (f : Dataset → Category) (l : List Dataset)
    (acc : Categorized) (ds : Dataset) :
    ds ∈ (l.foldl (pushCategory f) acc).LAW_VERIFICATION ↔
      ds ∈ acc.LAW_VERIFICATION ∨ (ds ∈ l ∧ f ds = .LAW_VERIFICATION) := by
  induction l generalizing acc with
  | nil => simp
  | cons e r ih =>
    rw [List.foldl_cons, ih]
    rcases hc : f e with _ | _ | _ <;>
      simp only [pushCategory, hc, List.mem_append, List.mem_singleton,
        List.mem_cons]
    · have he : ds = e → f ds = Category.LAW_VERIFICATION := fun h => by rw [h, hc]
      tauto
    · have he : ds = e → f ds ≠ Category.LAW_VERIFICATION := fun h hl => by
        rw [h, hc] at hl; exact Category.noConfusion hl
      tauto
    · have he : ds = e → f ds ≠ Category.LAW_VERIFICATION := fun h hl => by
        rw [h, hc] at hl; exact Category.noConfusion hl
      tauto

theorem mem_categorize_NEWS (f : Dataset → Category) (l : List Dataset)
    (acc : Categorized) (ds : Dataset) :
    ds ∈ (l.foldl (pushCategory f) acc).NEWS ↔
      ds ∈ acc.NEWS ∨ (ds ∈ l ∧ f ds = .NEWS) := by
  induction l generalizing acc with
  | nil => simp
  | cons e r ih =>
    rw [List.foldl_cons, ih]
    rcases hc : f e with _ | _ | _ <;>
      simp only [pushCategory, hc, List.mem_append, List.mem_singleton,
        List.mem_cons]
    · have he : ds = e → f ds ≠ Category.NEWS := fun h hl => by
        rw [h, hc] at hl; exact Category.noConfusion hl
      tauto
    · have he : ds = e → f ds = Category.NEWS := fun h => by rw [h, hc]
      tauto
    · have he : ds = e → f ds ≠ Category.NEWS := fun h hl => by
        rw [h, hc] at hl; exact Category.noConfusion hl
      tauto

theorem mem_categorize_AR (f : Dataset → Category) (l : List Dataset)
    (acc : Categorized) (ds : Dataset) :
    ds ∈ (l.foldl (pushCategory f) acc).ATTORNEY_RESOURCE ↔
      ds ∈ acc.ATTORNEY_RESOURCE ∨ (ds ∈ l ∧ f ds = .ATTORNEY_RESOURCE) := by
  induction l generalizing acc with
  | nil => simp
  | cons e r ih =>
    rw [List.foldl_cons, ih]
    rcases hc : f e with _ | _ | _ <;>
      simp only [pushCategory, hc, List.mem_append, List.mem_singleton,
        List.mem_cons]
    · have he : ds = e → f ds ≠ Category.ATTORNEY_RESOURCE := fun h hl => by
        rw [h, hc] at hl; exact Category.noConfusion hl
      tauto
    · have he : ds = e → f ds ≠ Category.ATTORNEY_RESOURCE := fun h hl => by
        rw [h, hc] at hl; exact Category.noConfusion hl
      tauto
    · have he : ds = e → f ds = Category.ATTORNEY_RESOURCE := fun h => by rw [h, hc]
      tauto

/-- C2: every record passing the relevance filter is assigned exactly one
category by the first-match-wins priority chain (priority 1
LAW_VERIFICATION, then NEWS, then ATTORNEY_RESOURCE, fallback
LAW_VERIFICATION) evaluated on the lowercased name/description text; a
record containing both "court" and "news" is LAW_VERIFICATION in both
crawlers; and a record is in a bucket of the categorized output iff it is
relevant and the classifier picks that bucket — so non-relevant records
appear in no bucket. -/
theorem c2_classifierPriority (l : List Dataset) (ds : Dataset) :
    (containsStr (classText ds) "court" = true → containsStr (classText ds) "news" = true →
      classifyTDC ds = Category.LAW_VERIFICATION ∧ classifyMulti ds = Category.LAW_VERIFICATION)
  ∧ (lawMatchTDC (classText ds) = true → classifyTDC ds = Category.LAW_VERIFICATION)
  ∧ (lawMatchTDC (classText ds) = false → newsMatch (classText ds) = true →
      classifyTDC ds = Category.NEWS)
  ∧ (lawMatchTDC (classText ds) = false → newsMatch (classText ds) = false →
      attorneyMatch (classText ds) = true → classifyTDC ds = Category.ATTORNEY_RESOURCE)
  ∧ (lawMatchTDC (classText ds) = false → newsMatch (classText ds) = false →
      attorneyMatch (classText ds) = false → classifyTDC ds = Category.LAW_VERIFICATION)
  ∧ (lawMatchMulti (classText ds) = true → classifyMulti ds = Category.LAW_VERIFICATION)
  ∧ (lawMatchMulti (classText ds) = false → newsMatch (classText ds) = true →
      classifyMulti ds = Category.NEWS)
  ∧ (lawMatchMulti (classText ds) = false → newsMatch (classText ds) = false →
      attorneyMatch (classText ds) = true → classifyMulti ds = Category.ATTORNEY_RESOURCE)
  ∧ (lawMatchMulti (classText ds) = false → newsMatch (classText ds) = false →
      attorneyMatch (classText ds) = false → classifyMulti ds = Category.LAW_VERIFICATION)
  ∧ (ds ∈ (filterLegalDatasetsTDC l).LAW_VERIFICATION ↔
      ds ∈ l ∧ isRelevantTDC ds = true ∧ classifyTDC ds = Category.LAW_VERIFICATION)
  ∧ (ds ∈ (filterLegalDatasetsTDC l).NEWS ↔
      ds ∈ l ∧ isRelevantTDC ds = true ∧ classifyTDC ds = Category.NEWS)
  ∧ (ds ∈ (filterLegalDatasetsTDC l).ATTORNEY_RESOURCE ↔
      ds ∈ l ∧ isRelevantTDC ds = true ∧ classifyTDC ds = Category.ATTORNEY_RESOURCE)
  ∧ (ds ∈ (filterLegalDatasetsMulti l).LAW_VERIFICATION ↔
      ds ∈ l ∧ isRelevantMulti ds = true ∧ classifyMulti ds = Category.LAW_VERIFICATION)
  ∧ (ds ∈ (filterLegalDatasetsMulti l).NEWS ↔
      ds ∈ l ∧ isRelevantMulti ds = true ∧ classifyMulti ds = Category.NEWS)
  ∧ (ds ∈ (filterLegalDatasetsMulti l).ATTORNEY_RESOURCE ↔
      ds ∈ l ∧ isRelevantMulti ds = true ∧ classifyMulti ds = Category.ATTORNEY_RESOURCE) := by
  have hcourtTDC : containsStr (classText ds) "court" = true →
      lawMatchTDC (classText ds) = true := fun h =>
    List.any_eq_true.mpr ⟨"court", by simp, h⟩
  have hcourtMulti : containsStr (classText ds) "court" = true →
      lawMatchMulti (classText ds) = true := fun h =>
    List.any_eq_true.mpr ⟨"court", by simp, h⟩
  refine ⟨?_, ?_, ?_, ?_, ?_, ?_, ?_, ?_, ?_, ?_, ?_, ?_, ?_, ?_, ?_⟩
  · intro hc _
    constructor
    · simp [classifyTDC, hcourtTDC hc]
    · simp [classifyMulti, hcourtMulti hc]
  · intro h1; simp [classifyTDC, h1]
  · intro h1 h2; simp [classifyTDC, h1, h2]
  · intro h1 h2 h3; simp [classifyTDC, h1, h2, h3]
  · intro h1 h2 h3; simp [classifyTDC, h1, h2, h3]
  · intro h1; simp [classifyMulti, h1]
  · intro h1 h2; simp [classifyMulti, h1, h2]
  · intro h1 h2 h3; simp [classifyMulti, h1, h2, h3]
  · intro h1 h2 h3; simp [classifyMulti, h1, h2, h3]
  · rw [filterLegalDatasetsTDC, categorizeWith, mem_categorize_LV]
    simp [emptyCategorized, List.mem_filter, and_assoc]
  · rw [filterLegalDatasetsTDC, categorizeWith, mem_categorize_NEWS]
    simp [emptyCategorized, List.mem_filter, and_assoc]
  · rw [filterLegalDatasetsTDC, categorizeWith, mem_categorize_AR]
    simp [emptyCategorized, List.mem_filter, and_assoc]
  · rw [filterLegalDatasetsMulti, categorizeWith, mem_categorize_LV]
    simp [emptyCategorized, List.mem_filter, and_assoc]
  · rw [filterLegalDatasetsMulti, categorizeWith, mem_categorize_NEWS]
    simp [emptyCategorized, List.mem_filter, and_assoc]
  · rw [filterLegalDatasetsMulti, categorizeWith, mem_categorize_AR]
    simp [emptyCategorized, List.mem_filter, and_assoc]

/-- A record whose classification text contains both "court" and "news". -/
def dsCourtNews : Dataset :=
  { id := "cn01-0001", name := "Court News Daily", description := "",
    category := "", tags := [], viewCount := 0, downloadCount := 0 }

theorem c2_classifierPriority_witness :
    containsStr (classText dsCourtNews) "court" = true ∧
    containsStr (classText dsCourtNews) "news" = true ∧
    (classifyTDC dsCourtNews = Category.LAW_VERIFICATION ∧
      classifyMulti dsCourtNews = Category.LAW_VERIFICATION) :=
  ⟨by decide, by decide,
    (c2_classifierPriority [] dsCourtNews).1 (by decide) (by decide)⟩

/-- Modelled from the spec's words, for comparison in C6: a record is
relevant iff the case-insensitive concatenation of its name, description,
category, and joined tags contains at least one keyword of the fixed
relevance-keyword list as a substring (the extended multi-source list is
the spec's canonical set). -/
def relevantPerSpecC6 (ds : Dataset) : Bool :=
  relevanceKeywordsMulti.any fun kw => containsStr (relevanceTextTDC ds) kw

/-- A record whose only keyword occurrence sits in its `category` field. -/
def dsCategoryOnly : Dataset :=
  { id := "cat0-0001", name := "a", description := "", category := "court",
    tags := [], viewCount := 0, downloadCount := 0 }

/-- C6 counterexample: the multi-source crawler's relevance filter scans
only `name` and `description`, so a record carrying the keyword "court"
only in its `category` field is relevant per the claim's characterization
but rejected by the code. -/
theorem c6_counterexample :
    relevantPerSpecC6 dsCategoryOnly = true ∧
    isRelevantMulti dsCategoryOnly = false := by
  constructor <;> decide

/-- C6 (amended): the single-source crawler is relevant iff the lowercased
concatenation of name, description, category and joined tags contains one
of its 32 keywords; the multi-source crawler is relevant iff the lowercased
concatenation of name and description alone contains one of its 44
keywords. -/
theorem c6_relevanceFilter (ds : Dataset) :
    (isRelevantTDC ds = true ↔
      ∃ kw ∈ relevanceKeywordsTDC, containsStr (relevanceTextTDC ds) kw = true)
  ∧ (isRelevantMulti ds = true ↔
      ∃ kw ∈ relevanceKeywordsMulti, containsStr (relevanceTextMulti ds) kw = true) := by
  constructor
  · exact List.any_eq_true
  · exact List.any_eq_true

/-- A JSON-style JS value (the fragment the crawler manipulates: no
floating point beyond integers, no arrays needed by the claims).  Object
keys are assumed unique, as produced by `JSON.parse`. -/
inductive JsVal : Type where
  | jsUndefined : JsVal
  | jsNull : JsVal
  | jsBool : Bool → JsVal
  | num : Int → JsVal
  | str : String → JsVal
  | obj : List (String × JsVal) → JsVal

/-- First binding of a key in an object's field list. -/
def lookupField : List (String × JsVal) → String → Option JsVal
  | [], _ => none
  | (k, v) :: rest, key => if k = key then some v else lookupField rest key

/-- JS property access `v[key]`: `undefined` for a missing key or a
non-object receiver. -/
def getField (v : JsVal) (key : String) : JsVal :=
  match v with
  | .obj fields => (lookupField fields key).getD .jsUndefined
  | _ => .jsUndefined

/-- JS truthiness. -/
def truthy : JsVal → Bool
  | .jsUndefined => false
  | .jsNull => false
  | .jsBool b => b
  | .num n => n != 0
  | .str s => s ≠ ""
  | .obj _ => true

/-- `ReachabilityProbe`: the observable outcome of the single `https.get`
issued by `checkReachability` — either a response with a status code, or a
transport error. -/
inductive ProbeOutcome : Type where
  | response : Nat → ProbeOutcome
  | transportFailure : String → ProbeOutcome
deriving DecidableEq

/-- `TexasMultiSourceCrawler.checkReachability`: resolve
`res.statusCode === 200` on a response and `false` on an `error` event;
the promise has no reject path. -/
def checkReachability : ProbeOutcome → Bool
  | .response statusCode => statusCode == 200
  | .transportFailure _ => false

/-- C9: `checkReachability` returns `true` exactly on a response with
status code 200; every transport error yields `false`, and the function is
total (never throws or rejects). -/
theorem c9_checkReachability (o : ProbeOutcome) :
    checkReachability o = true ↔ o = ProbeOutcome.response 200 := by
  cases o with
  | response code => simp [checkReachability]
  | transportFailure m => simp [checkReachability]

/-- One-decimal digit count of `reachable / total * 100`, rounded half-up
(ECMA `toFixed` picks the larger candidate on ties for non-negative
values); exact-rational model of the JS double arithmetic, which agrees
with it on every input relevant to the claims. -/
def fixedDigits (reachable total : Nat) : Nat :=
  (2 * (reachable * 1000) + total) / (2 * total)

/-- `(reachable / total * 100).toFixed(1)` for `total ≠ 0`. -/
def toFixed1Str (reachable total : Nat) : String :=
  toString (fixedDigits reachable total / 10) ++ "." ++
    toString (fixedDigits reachable total % 10)

/-- `TexasDataCrawler.measureAPIReachability` rate:
`(reachable / total * 100).toFixed(1)` with no guard on `total = 0`; in JS
`0/0` is `NaN` and `r/0` for `r > 0` is `Infinity`, and `toFixed(1)`
renders those as "NaN" / "Infinity". -/
def rateTDC (reachable total : Nat) : String :=
  if total = 0 then (if reachable = 0 then "NaN" else "Infinity")
  else toFixed1Str reachable total

/-- `TexasMultiSourceCrawler.measureAPIReachability` rate:
`total > 0 ? (reachable / total * 100).toFixed(1) : 0` — a string in the
positive case and the number `0` otherwise. -/
def rateMulti (reachable total : Nat) : JsVal :=
  if 0 < total then .str (toFixed1Str reachable total) else .num 0

/-- C8 counterexample: with `totalCount = 0` the single-source crawler's
rate is the string "NaN" (JS `0/0`), not 0 as the claim states. -/
theorem c8_counterexample :
    rateTDC 0 0 = "NaN" ∧ rateTDC 0 0 ≠ "0" ∧ rateTDC 0 0 ≠ "0.0" := by
  refine ⟨rfl, ?_, ?_⟩ <;> decide

/-- C8 (amended): for `totalCount > 0` both crawlers report
`reachedCount/totalCount*100` rounded to one decimal (and agree); 6
successes out of 10 probes report exactly "60.0"; the multi-source crawler
returns the number 0 when `totalCount = 0`, while the single-source
crawler returns "NaN" there. -/
theorem c8_reachabilityRate (reachable total : Nat) :
    (0 < total → rateMulti reachable total = JsVal.str (rateTDC reachable total))
  ∧ rateMulti reachable 0 = JsVal.num 0
  ∧ rateTDC 6 10 = "60.0"
  ∧ rateMulti 6 10 = JsVal.str "60.0" := by
  refine ⟨?_, ?_, ?_, ?_⟩
  · intro ht
    have hne : total ≠ 0 := Nat.pos_iff_ne_zero.mp ht
    simp [rateMulti, rateTDC, ht, hne]
  · simp [rateMulti]
  · rfl
  · rfl

theorem c8_reachabilityRate_witness :
    0 < 10 ∧ rateMulti 6 10 = JsVal.str (rateTDC 6 10) :=
  ⟨by decide, (c8_reachabilityRate 6 10).1 (by decide)⟩

/-- One raw Socrata listing item as returned by the views endpoint; the
fields the crawlers read, each optional where the source applies a `||`
default. -/
structure RawItem where
  id : String
  name : String
  description : Option String
  category : Option String
  tags : Option (List String)
  viewCount : Option Nat
  downloadCount : Option Nat

/-- The per-item mapping applied by `discoverDatasetsViaAPI` /
`crawlSocrata` (`d.description || ''`, `d.tags || []`, counts defaulted to
0). -/
def mkDataset (d : RawItem) : Dataset :=
  { id := d.id, name := d.name, description := d.description.getD "",
    category := d.category.getD "", tags := d.tags.getD [],
    viewCount := d.viewCount.getD 0, downloadCount := d.downloadCount.getD 0 }

/-- `TexasMultiSourceCrawler.crawlSocrata`: the whole fetch/map sits in a
`try`; on success the records are stored and
`apiReachability[source] = true`, on any rejection the catch records
`apiReachability[source] = false` and returns `[]`.  The function itself
never throws. -/
def crawlSocrata (listing : Except String (List RawItem)) :
    List Dataset × Bool :=
  match listing with
  | .ok data => (data.map mkDataset, true)
  | .error _ => ([], false)

/-- `TexasDataCrawler.discoverDatasetsViaAPI`: no `try`/`catch` — a
rejected `fetchJSON` propagates to the caller. -/
def discoverDatasetsViaAPI (listing : Except String (List RawItem)) :
    Except String (List Dataset) :=
  match listing with
  | .ok data => .ok (data.map mkDataset)
  | .error e => .error e

/-- Stage record of one `TexasDataCrawler.run` invocation.  `categorized`
is `none` when `filterLegalDatasets` was never reached, and the Booleans
record whether the reachability-measuring and scoring stages executed. -/
structure TDCRunResult where
  datasets : List Dataset
  categorized : Option Categorized
  reachabilityMeasured : Bool
  qualityScored : Bool
  exported : Bool

/-- `TexasDataCrawler.run` control flow for the discovery stage: the
stages run sequentially inside one `try`; a rejected listing fetch in
`discoverDatasetsViaAPI` jumps to the top-level catch, so filtering,
reachability measurement, scoring and export are all skipped. -/
def runTDC (listing : Except String (List RawItem)) : TDCRunResult :=
  match discoverDatasetsViaAPI listing with
  | .error _ =>
      { datasets := [], categorized := none, reachabilityMeasured := false,
        qualityScored := false, exported := false }
  | .ok ds =>
      { datasets := ds, categorized := some (filterLegalDatasetsTDC ds),
        reachabilityMeasured := true, qualityScored := true, exported := true }

/-- Stage record of one `TexasMultiSourceCrawler.run` invocation (browser
absent, so only the Socrata source is crawled; the later stages cannot be
skipped because `crawlSocrata` traps its own failures). -/
structure MultiRunResult where
  datasetsBySource : List (String × List Dataset)
  apiReachability : List (String × Bool)
  categorized : Option Categorized
  qualityScored : Bool

/-- `TexasMultiSourceCrawler.run` control flow for the Socrata source. -/
def runMulti (listing : Except String (List RawItem)) : MultiRunResult :=
  let crawled := crawlSocrata listing
  { datasetsBySource := [("data.texas.gov", crawled.1)],
    apiReachability := [("data.texas.gov", crawled.2)],
    categorized := some (filterLegalDatasetsMulti crawled.1),
    qualityScored := true }

/-- C7 counterexample: in the single-source crawler a failing listing
request aborts the pipeline — no categorization, reachability measurement,
scoring or export stage runs — contradicting the claim that processing
continues to subsequent stages. -/
theorem c7_counterexample :
    (runTDC (Except.error "ECONNREFUSED")).categorized = none ∧
    (runTDC (Except.error "ECONNREFUSED")).reachabilityMeasured = false ∧
    (runTDC (Except.error "ECONNREFUSED")).qualityScored = false ∧
    (runTDC (Except.error "ECONNREFUSED")).exported = false :=
  ⟨rfl, rfl, rfl, rfl⟩

/-- C7 (amended): in the multi-source crawler a failed listing fetch
yields zero records for the source, records `false` in the reachability
bookkeeping, and the pipeline still runs its remaining stages; the
single-source crawler instead skips all remaining stages on the same
failure. -/
theorem c7_sourceFetchIsolation (e : String) (listing : Except String (List RawItem)) :
    crawlSocrata (Except.error e) = ([], false)
  ∧ (runMulti (Except.error e)).datasetsBySource = [("data.texas.gov", [])]
  ∧ (runMulti (Except.error e)).apiReachability = [("data.texas.gov", false)]
  ∧ (runMulti listing).categorized.isSome = true
  ∧ (runMulti listing).qualityScored = true
  ∧ (runTDC (Except.error e)).categorized = none := by
  refine ⟨rfl, rfl, rfl, ?_, rfl, rfl⟩
  cases listing <;> rfl

/-- State of one `CDPBrowser` instance: the next correlation id
(`this.id`, initialized to 1), the ids with a registered resolver
(`this.pending`, keys of the `Map`), and — for observability of promise
resolutions — the log of `(id, payload)` pairs passed to resolvers, in
arrival order. -/
structure CDPState where
  nextId : Int
  pending : List Int
  resolvedLog : List (Int × JsVal)

def initCDP : CDPState := { nextId := 1, pending := [], resolvedLog := [] }

/-- The payload handed to a resolver: `msg.result || msg`. -/
def resolvePayload (m : JsVal) : JsVal :=
  if truthy (getField m "result") then getField m "result" else m

/-- The numeric value of `msg.id` when it is a number (the only case in
which `Map.has(msg.id)` can succeed, the pending map being keyed by the
numbers handed out by `send`). -/
def msgIdNum (m : JsVal) : Option Int :=
  match getField m "id" with
  | .num i => some i
  | _ => none

/-- The `onmessage` handler body after a successful parse:
`if (msg.id && pending.has(msg.id)) { pending.get(msg.id)(msg.result || msg);
pending.delete(msg.id); }`. -/
def onMessage (st : CDPState) (m : JsVal) : CDPState :=
  if truthy (getField m "id") then
    match msgIdNum m with
    | some i =>
        if st.pending.contains i then
          { st with pending := st.pending.erase i,
                    resolvedLog := st.resolvedLog ++ [(i, resolvePayload m)] }
        else st
    | none => st
  else st

/-- The full `onmessage` handler: `JSON.parse(event.data)` has no
surrounding `try`/`catch`, so a parse failure propagates out of the
handler instead of producing a successor state. -/
def onRawMessage (st : CDPState) (raw : Except String JsVal) :
    Except String CDPState :=
  match raw with
  | .error e => .error e
  | .ok m => .ok (onMessage st m)

/-- C4: the claim is right and the code is wrong — a message whose body
fails to parse makes the handler itself throw (`JSON.parse` is unguarded),
so the malformed payload is not dropped and no continuing client state is
produced. -/
theorem c4_malformedMessageThrows (st : CDPState) (e : String) :
    onRawMessage st (Except.error e) = Except.error e ∧
    ∀ st2 : CDPState, onRawMessage st (Except.error e) ≠ Except.ok st2 := by
  refine ⟨rfl, ?_⟩
  intro st2 h
  exact Except.noConfusion h

/-- JS nullish test used by optional chaining. -/
def isNullish : JsVal → Bool
  | .jsUndefined => true
  | .jsNull => true
  | _ => false

/-- `a?.b`: `undefined` when the receiver is nullish, plain access
otherwise. -/
def optChainField (v : JsVal) (key : String) : JsVal :=
  if isNullish v then .jsUndefined else getField v key

/-- The value returned by `CDPBrowser.evaluate` from the resolved payload:
`result.result?.value`. -/
def evaluateExtract (resolved : JsVal) : JsVal :=
  optChainField (getField resolved "result") "value"

/-- A response message with no `result` field: `send` resolves it with the
whole message (`msg.result || msg`). -/
def msgNoResult : JsVal := JsVal.obj [("id", JsVal.num 3)]

/-- C5 counterexample: on a resolved payload without a `.result.value`
field, `evaluate` returns JS `undefined`, not the string "no value". -/
theorem c5_counterexample :
    evaluateExtract (resolvePayload msgNoResult) = JsVal.jsUndefined ∧
    evaluateExtract (resolvePayload msgNoResult) ≠ JsVal.str "no value" := by
  refine ⟨rfl, ?_⟩
  intro h
  exact JsVal.noConfusion h

/-- C5 (amended): `evaluate` returns the `.result.value` field of the
resolved payload when the `.result` receiver is non-nullish, and JS
`undefined` (no defaulting to any string) when it is nullish. -/
theorem c5_evaluateExtract (p : JsVal) :
    (isNullish (getField p "result") = true → evaluateExtract p = JsVal.jsUndefined)
  ∧ (isNullish (getField p "result") = false →
      evaluateExtract p = getField (getField p "result") "value") := by
  constructor
  · intro h
    simp [evaluateExtract, optChainField, h]
  · intro h
    simp [evaluateExtract, optChainField, h]

/-- A resolved payload carrying `.result.value`. -/
def payloadWithValue : JsVal :=
  JsVal.obj [("result", JsVal.obj [("type", JsVal.str "string"),
    ("value", JsVal.str "forty-two")])]

theorem c5_evaluateExtract_witness :
    isNullish (getField payloadWithValue "result") = false ∧
    evaluateExtract payloadWithValue =
      getField (getField payloadWithValue "result") "value" :=
  ⟨rfl, (c5_evaluateExtract payloadWithValue).2 rfl⟩

/-- One transport event seen by a `CDPBrowser` instance: a `send(...)`
call, or the arrival of one already-parsed websocket message. -/
inductive CEvent : Type where
  | send : CEvent
  | recv : JsVal → CEvent

/-- One step of the client: `send` grabs `this.id++` as the correlation id
and registers a resolver for it; a received message runs the `onmessage`
handler. -/
def stepCDP (st : CDPState) : CEvent → CDPState
  | .send =>
      { nextId := st.nextId + 1, pending := st.pending ++ [st.nextId],
        resolvedLog := st.resolvedLog }
  | .recv m => onMessage st m

def runEvents (es : List CEvent) : CDPState := es.foldl stepCDP initCDP

/-- Number of `send` events in a trace. -/
def nSends : List CEvent → Nat
  | [] => 0
  | .send :: r => nSends r + 1
  | .recv _ :: r => nSends r

/-- The correlation ids handed out along a trace when the counter starts
at `n`. -/
def assignedIds : Int → List CEvent → List Int
  | _, [] => []
  | n, .send :: r => n :: assignedIds (n + 1) r
  | n, .recv _ :: r => assignedIds n r

/-- The received messages whose `id` field is the number `i`, in arrival
order. -/
def recvWithId (i : Int) (es : List CEvent) : List JsVal :=
  es.filterMap fun e =>
    match e with
    | .recv m => if msgIdNum m = some i then some m else none
    | .send => none

def firstRecvWithId (i : Int) (es : List CEvent) : Option JsVal :=
  (recvWithId i es).head?

/-- Well-formedness of one event after `s` sends: a received message
carrying a positive numeric id answers an already-issued command (id at
most `s`).  A CDP endpoint only responds to requests, so every real trace
satisfies this. -/
def eventOk (s : Nat) : CEvent → Bool
  | .send => true
  | .recv m =>
      match msgIdNum m with
      | some i => decide (i ≤ (s : Int) ∨ i ≤ 0)
      | none => true

def wfTrace : Nat → List CEvent → Bool
  | _, [] => true
  | s, .send :: r => wfTrace (s + 1) r
  | s, .recv m :: r => eventOk s (.recv m) && wfTrace s r

theorem runEvents_append (es : List CEvent) (e : CEvent) :
    runEvents (es ++ [e]) = stepCDP (runEvents es) e := by
  simp [runEvents, List.foldl_append]

theorem nSends_append (l₁ l₂ : List CEvent) :
    nSends (l₁ ++ l₂) = nSends l₁ + nSends l₂ := by
  induction l₁ with
  | nil => simp [nSends]
  | cons e r ih =>
    cases e with
    | send => simp [nSends, ih]; omega
    | recv m => simp [nSends, ih]

theorem recvWithId_append (i : Int) (l₁ l₂ : List CEvent) :
    recvWithId i (l₁ ++ l₂) = recvWithId i l₁ ++ recvWithId i l₂ := by
  simp [recvWithId, List.filterMap_append]

theorem recvWithId_single_send (i : Int) : recvWithId i [CEvent.send] = [] := rfl

theorem recvWithId_single_recv (i : Int) (m : JsVal) :
    recvWithId i [CEvent.recv m] = if msgIdNum m = some i then [m] else [] := by
  by_cases h : msgIdNum m = some i <;> simp [recvWithId, h]

theorem wfTrace_append (l₁ l₂ : List CEvent) :
    ∀ s, wfTrace s (l₁ ++ l₂) = (wfTrace s l₁ && wfTrace (s + nSends l₁) l₂) := by
  induction l₁ with
  | nil => intro s; simp [wfTrace, nSends]
  | cons e r ih =>
    intro s
    cases e with
    | send =>
      rw [List.cons_append]
      show wfTrace (s + 1) (r ++ l₂) =
        (wfTrace (s + 1) r && wfTrace (s + (nSends r + 1)) l₂)
      have harith : s + 1 + nSends r = s + (nSends r + 1) := by omega
      rw [ih (s + 1), harith]
    | recv m =>
      rw [List.cons_append]
      show (eventOk s (CEvent.recv m) && wfTrace s (r ++ l₂)) =
        ((eventOk s (CEvent.recv m) && wfTrace s r) && wfTrace (s + nSends r) l₂)
      rw [ih s, Bool.and_assoc]

theorem wf_no_big_recv (es : List CEvent) :
    ∀ s : Nat, wfTrace s es = true →
      ∀ i : Int, (s : Int) + (nSends es : Int) < i → recvWithId i es = [] := by
  induction es with
  | nil => intro s _ i _; rfl
  | cons e r ih =>
    intro s hwf i hi
    cases e with
    | send =>
      have : recvWithId i (CEvent.send :: r) = recvWithId i r := by
        simp [recvWithId]
      rw [this]
      refine ih (s + 1) hwf i ?_
      have hcast : (nSends (CEvent.send :: r) : Int) = (nSends r : Int) + 1 := by
        simp [nSends]
      omega
    | recv m =>
      rw [wfTrace, Bool.and_eq_true] at hwf
      have heOk : eventOk s (CEvent.recv m) = true := hwf.1
      have hr : wfTrace s r = true := hwf.2
      have hn : (nSends (CEvent.recv m :: r) : Int) = (nSends r : Int) := by
        simp [nSends]
      have hhead : (match CEvent.recv m with
          | CEvent.recv m' => if msgIdNum m' = some i then some m' else none
          | CEvent.send => none) = (none : Option JsVal) := by
        rcases hm : msgIdNum m with _ | j
        · simp [hm]
        · rw [eventOk, hm] at heOk
          have hj := of_decide_eq_true heOk
          have hji : j ≠ i := by omega
          simp [hm, hji]
      rw [recvWithId, List.filterMap_cons, hhead]
      exact ih s hr i (by omega)

theorem assignedIds_eq (es : List CEvent) :
    ∀ n : Int,
      assignedIds n es = (List.range (nSends es)).map (fun (k : Nat) => n + (k : Int)) := by
  induction es with
  | nil => intro n; simp [assignedIds, nSends]
  | cons e r ih =>
    intro n
    cases e with
    | send =>
      have hfun : ((fun (k : Nat) => n + (k : Int)) ∘ Nat.succ) =
          fun (k : Nat) => (n + 1) + (k : Int) := by
        funext k
        simp only [Function.comp_apply]
        push_cast
        ring
      simp only [assignedIds, nSends, List.range_succ_eq_map, List.map_cons,
        List.map_map, hfun, ih, Nat.cast_zero, add_zero]
    | recv m =>
      simp only [assignedIds, nSends, ih]

theorem contains_mem {l : List Int} {i : Int} : l.contains i = true ↔ i ∈ l := by
  show l.elem i = true ↔ i ∈ l
  exact List.elem_iff

theorem msgIdNum_some {m : JsVal} {j : Int} (h : msgIdNum m = some j) :
    getField m "id" = JsVal.num j := by
  unfold msgIdNum at h
  rcases hg : getField m "id" with _ | _ | b | i | s | fs <;> rw [hg] at h <;>
    simp at h
  rw [h]

/-- Global invariant of a `CDPBrowser` run over a well-formed trace: the
counter is 1 plus the number of sends; the pending ids are exactly the
issued ids whose response has not arrived; each resolver fires at most
once; and a resolver fires exactly for the first received message carrying
its id, with payload `msg.result || msg` of that message. -/
theorem cdpInvariant (es : List CEvent) (hwf : wfTrace 0 es = true) :
    (runEvents es).nextId = 1 + (nSends es : Int)
  ∧ (runEvents es).pending.Nodup
  ∧ (∀ i : Int, i ∈ (runEvents es).pending ↔
      1 ≤ i ∧ i ≤ (nSends es : Int) ∧ firstRecvWithId i es = none)
  ∧ ((runEvents es).resolvedLog.map Prod.fst).Nodup
  ∧ (∀ (i : Int) (p : JsVal), (i, p) ∈ (runEvents es).resolvedLog ↔
      1 ≤ i ∧ ∃ m, firstRecvWithId i es = some m ∧ p = resolvePayload m) := by
  induction es using List.reverseRecOn with
  | nil =>
    refine ⟨rfl, List.nodup_nil, ?_, List.nodup_nil, ?_⟩
    · intro i
      constructor
      · intro h
        exact absurd h (List.not_mem_nil i)
      · rintro ⟨h1, h2, -⟩
        simp only [nSends, Nat.cast_zero] at h2
        omega
    · intro i p
      constructor
      · intro h
        exact absurd h (List.not_mem_nil _)
      · rintro ⟨-, m, hm, -⟩
        exact Option.noConfusion hm
  | append_singleton es e ih =>
    rw [wfTrace_append, Bool.and_eq_true] at hwf
    obtain ⟨hwf1, hwf2⟩ := hwf
    obtain ⟨hNext, hNodup, hPend, hLogNodup, hLog⟩ := ih hwf1
    rw [runEvents_append]
    set st := runEvents es with hst
    cases e with
    | send =>
      have hN : nSends (es ++ [CEvent.send]) = nSends es + 1 := by
        rw [nSends_append]
        rfl
      have hfirst : ∀ i : Int,
          firstRecvWithId i (es ++ [CEvent.send]) = firstRecvWithId i es := by
        intro i
        rw [firstRecvWithId, recvWithId_append, recvWithId_single_send,
          List.append_nil, firstRecvWithId]
      have hbig : firstRecvWithId (1 + (nSends es : Int)) es = none := by
        have hempty := wf_no_big_recv es 0 hwf1 (1 + (nSends es : Int))
          (by push_cast; omega)
        rw [firstRecvWithId, hempty]
        rfl
      simp only [stepCDP]
      refine ⟨?_, ?_, ?_, ?_, ?_⟩
      · rw [hN, hNext]
        push_cast
        ring
      · rw [List.nodup_append]
        refine ⟨hNodup, List.nodup_singleton _, ?_⟩
        intro a ha hb
        rw [List.mem_singleton] at hb
        obtain ⟨-, h2, -⟩ := (hPend a).mp ha
        rw [hb, hNext] at h2
        omega
      · intro i
        rw [List.mem_append, List.mem_singleton, hfirst i, hN]
        constructor
        · rintro (hmem | heq)
          · obtain ⟨h1, h2, h3⟩ := (hPend i).mp hmem
            refine ⟨h1, ?_, h3⟩
            push_cast
            omega
          · rw [heq, hNext]
            refine ⟨by omega, by omega, hbig⟩
        · rintro ⟨h1, h2, h3⟩
          by_cases hle : i ≤ (nSends es : Int)
          · exact Or.inl ((hPend i).mpr ⟨h1, hle, h3⟩)
          · right
            rw [hNext]
            push_cast at h2
            omega
      · exact hLogNodup
      · intro i p
        rw [hfirst i]
        exact hLog i p
    | recv m =>
      have heOk : eventOk (nSends es) (CEvent.recv m) = true := by
        rw [wfTrace, Bool.and_eq_true] at hwf2
        have h := hwf2.1
        rwa [Nat.zero_add] at h
      have hN : nSends (es ++ [CEvent.recv m]) = nSends es := by
        rw [nSends_append]
        rfl
      have hfirstT : ∀ i : Int, msgIdNum m = some i → recvWithId i es = [] →
          firstRecvWithId i (es ++ [CEvent.recv m]) = some m := by
        intro i hg hr
        rw [firstRecvWithId, recvWithId_append, recvWithId_single_recv, hr,
          if_pos hg]
        rfl
      have hfirstF : ∀ i : Int, ¬ (msgIdNum m = some i ∧ recvWithId i es = []) →
          firstRecvWithId i (es ++ [CEvent.recv m]) = firstRecvWithId i es := by
        intro i hni
        rw [firstRecvWithId, recvWithId_append, recvWithId_single_recv]
        by_cases hg : msgIdNum m = some i
        · rw [if_pos hg]
          rcases hr : recvWithId i es with _ | ⟨a, t⟩
          · exact absurd ⟨hg, hr⟩ hni
          · rw [firstRecvWithId, hr]
            rfl
        · rw [if_neg hg, List.append_nil, firstRecvWithId]
      simp only [stepCDP]
      rcases hm : msgIdNum m with _ | j
      · -- non-numeric (or absent) id: `Map.has` cannot match, state unchanged
        have hstep : onMessage st m = st := by
          unfold onMessage
          rw [hm]
          exact ite_self st
        have hfirst2 : ∀ i : Int,
            firstRecvWithId i (es ++ [CEvent.recv m]) = firstRecvWithId i es := by
          intro i
          refine hfirstF i ?_
          rintro ⟨hg, -⟩
          rw [hm] at hg
          exact Option.noConfusion hg
        rw [hstep]
        refine ⟨by rw [hN]; exact hNext, hNodup, ?_, hLogNodup, ?_⟩
        · intro i
          rw [hN, hfirst2 i]
          exact hPend i
        · intro i p
          rw [hfirst2 i]
          exact hLog i p
      · -- numeric id j
        have hgf : getField m "id" = JsVal.num j := msgIdNum_some hm
        have hj : j ≤ (nSends es : Int) ∨ j ≤ 0 := by
          simp only [eventOk, hm, decide_eq_true_eq] at heOk
          exact heOk
        by_cases hj0 : j = 0
        · -- falsy id 0: handler does nothing
          have hstep : onMessage st m = st := by
            unfold onMessage
            rw [hgf, hj0]
            simp [truthy]
          rw [hstep]
          refine ⟨by rw [hN]; exact hNext, hNodup, ?_, hLogNodup, ?_⟩
          · intro i
            rw [hN]
            by_cases hi : msgIdNum m = some i ∧ recvWithId i es = []
            · rw [hfirstT i hi.1 hi.2]
              have hieq : i = 0 := by
                have hg1 := hi.1
                rw [hm, hj0] at hg1
                injection hg1 with h
                omega
              constructor
              · intro hmem
                obtain ⟨h1, -, -⟩ := (hPend i).mp hmem
                omega
              · rintro ⟨h1, -, hsome⟩
                omega
            · rw [hfirstF i hi]
              exact hPend i
          · intro i p
            by_cases hi : msgIdNum m = some i ∧ recvWithId i es = []
            · rw [hfirstT i hi.1 hi.2]
              have hieq : i = 0 := by
                have hg1 := hi.1
                rw [hm, hj0] at hg1
                injection hg1 with h
                omega
              constructor
              · intro hmem
                obtain ⟨h1, -⟩ := (hLog i p).mp hmem
                omega
              · rintro ⟨h1, -⟩
                omega
            · rw [hfirstF i hi]
              exact hLog i p
        · by_cases hcont : st.pending.contains j = true
          · -- the response resolves pending command j
            have hmemj : j ∈ st.pending := contains_mem.mp hcont
            obtain ⟨hj1, hj2, hj3⟩ := (hPend j).mp hmemj
            have hrj : recvWithId j es = [] := by
              rwa [firstRecvWithId, List.head?_eq_none_iff] at hj3
            have ht : truthy (getField m "id") = true := by
              rw [hgf]
              simp [truthy, hj0]
            have hstep : onMessage st m =
                { st with pending := st.pending.erase j,
                          resolvedLog := st.resolvedLog ++ [(j, resolvePayload m)] } := by
              unfold onMessage
              simp only [ht, hm, hcont, if_true]
            rw [hstep]
            dsimp only
            refine ⟨?_, ?_, ?_, ?_, ?_⟩
            · rw [hN]
              exact hNext
            · exact hNodup.erase j
            · intro i
              rw [hN, hNodup.mem_erase_iff]
              by_cases hij : i = j
              · subst hij
                rw [hfirstT i hm hrj]
                constructor
                · rintro ⟨hne, -⟩
                  exact absurd rfl hne
                · rintro ⟨-, -, hsome⟩
                  exact Option.noConfusion hsome
              · have hguard : ¬ (msgIdNum m = some i ∧ recvWithId i es = []) := by
                  rintro ⟨hg1, -⟩
                  rw [hm] at hg1
                  refine hij ?_
                  injection hg1 with h
                  omega
                rw [hfirstF i hguard]
                constructor
                · rintro ⟨-, hmemi⟩
                  exact (hPend i).mp hmemi
                · intro hrhs
                  exact ⟨hij, (hPend i).mpr hrhs⟩
            · have hmap : List.map Prod.fst [(j, resolvePayload m)] = [j] := rfl
              rw [List.map_append, hmap, List.nodup_append]
              refine ⟨hLogNodup, List.nodup_singleton j, ?_⟩
              intro a ha hb
              rw [List.mem_singleton] at hb
              subst hb
              rw [List.mem_map] at ha
              obtain ⟨q, hqmem, hqfst⟩ := ha
              have hqpair : (q.1, q.2) ∈ st.resolvedLog := by
                rw [Prod.mk.eta]
                exact hqmem
              obtain ⟨-, m2, hsome, -⟩ := (hLog q.1 q.2).mp hqpair
              rw [hqfst] at hsome
              rw [hj3] at hsome
              exact Option.noConfusion hsome
            · intro i p
              rw [List.mem_append, List.mem_singleton]
              by_cases hij : i = j
              · subst hij
                rw [hfirstT i hm hrj]
                constructor
                · rintro (hold | hnew)
                  · obtain ⟨-, m2, hsome, -⟩ := (hLog i p).mp hold
                    rw [hj3] at hsome
                    exact Option.noConfusion hsome
                  · have hp : p = resolvePayload m := congrArg Prod.snd hnew
                    exact ⟨hj1, m, rfl, hp⟩
                · rintro ⟨-, m2, hsome, hp⟩
                  have hm2 : m = m2 := by
                    injection hsome with h
                  right
                  rw [hp, ← hm2]
              · have hguard : ¬ (msgIdNum m = some i ∧ recvWithId i es = []) := by
                  rintro ⟨hg1, -⟩
                  rw [hm] at hg1
                  refine hij ?_
                  injection hg1 with h
                  omega
                rw [hfirstF i hguard]
                constructor
                · rintro (hold | hnew)
                  · exact (hLog i p).mp hold
                  · have : i = j := congrArg Prod.fst hnew
                    exact absurd this hij
                · intro hrhs
                  exact Or.inl ((hLog i p).mpr hrhs)
          · -- unknown id: dropped, state unchanged
            rw [Bool.not_eq_true] at hcont
            have hstep : onMessage st m = st := by
              unfold onMessage
              simp only [hm, hcont]
              simp
            have hbad : ∀ i : Int, msgIdNum m = some i → recvWithId i es = [] →
                ¬ (1 ≤ i) := by
              intro i hg1 hrEmpty h1i
              rw [hm] at hg1
              have hij : i = j := by
                injection hg1 with h
                omega
              have hfnone : firstRecvWithId i es = none := by
                rw [firstRecvWithId, hrEmpty]
                rfl
              have hiN : i ≤ (nSends es : Int) := by
                rcases hj with hja | hjb
                · omega
                · omega
              have hmem : i ∈ st.pending := (hPend i).mpr ⟨h1i, hiN, hfnone⟩
              have hct := contains_mem.mpr hmem
              rw [hij] at hct
              rw [hct] at hcont
              exact Bool.noConfusion hcont
            rw [hstep]
            refine ⟨by rw [hN]; exact hNext, hNodup, ?_, hLogNodup, ?_⟩
            · intro i
              rw [hN]
              by_cases hi : msgIdNum m = some i ∧ recvWithId i es = []
              · rw [hfirstT i hi.1 hi.2]
                have hile := hbad i hi.1 hi.2
                constructor
                · intro hmem
                  obtain ⟨h1, -, -⟩ := (hPend i).mp hmem
                  exact absurd h1 hile
                · rintro ⟨h1, -, -⟩
                  exact absurd h1 hile
              · rw [hfirstF i hi]
                exact hPend i
            · intro i p
              by_cases hi : msgIdNum m = some i ∧ recvWithId i es = []
              · rw [hfirstT i hi.1 hi.2]
                have hile := hbad i hi.1 hi.2
                constructor
                · intro hmem
                  obtain ⟨h1, -⟩ := (hLog i p).mp hmem
                  exact absurd h1 hile
                · rintro ⟨h1, -⟩
                  exact absurd h1 hile
              · rw [hfirstF i hi]
                exact hLog i p

/-- C1: over any well-formed event trace of one connected client, the
correlation ids handed out by `send` are 1, 2, 3, ... — strictly
increasing from 1 and never reused — and a resolver fires with payload
`msg.result || msg` of exactly the first received message whose `id`
equals its command's id, each command resolving at most once.  In
particular two in-flight commands answered in reversed order each get
their own payload. -/
theorem c1_correlationIds (es : List CEvent) (hwf : wfTrace 0 es = true) :
    assignedIds 1 es = (List.range (nSends es)).map (fun (k : Nat) => 1 + (k : Int))
  ∧ (assignedIds 1 es).Pairwise (· < ·)
  ∧ (∀ (i : Int) (p : JsVal), (i, p) ∈ (runEvents es).resolvedLog ↔
      1 ≤ i ∧ ∃ m, firstRecvWithId i es = some m ∧ p = resolvePayload m)
  ∧ ((runEvents es).resolvedLog.map Prod.fst).Nodup := by
  obtain ⟨-, -, -, hLogNodup, hLog⟩ := cdpInvariant es hwf
  refine ⟨assignedIds_eq es 1, ?_, hLog, hLogNodup⟩
  rw [assignedIds_eq es 1]
  refine List.Pairwise.map _ ?_ (List.pairwise_lt_range (nSends es))
  intro a b hab
  show (1 : Int) + (a : Int) < 1 + (b : Int)
  omega

/-- Response payloads of the two witness commands. -/
def respA : JsVal := JsVal.obj [("r", JsVal.str "A")]

def respB : JsVal := JsVal.obj [("r", JsVal.str "B")]

def msgA : JsVal := JsVal.obj [("id", JsVal.num 1), ("result", respA)]

def msgB : JsVal := JsVal.obj [("id", JsVal.num 2), ("result", respB)]

/-- Two commands in flight, responses delivered in reversed order. -/
def reorderTrace : List CEvent :=
  [CEvent.send, CEvent.send, CEvent.recv msgB, CEvent.recv msgA]

theorem c1_correlationIds_witness :
    wfTrace 0 reorderTrace = true ∧
    ((1, respA) ∈ (runEvents reorderTrace).resolvedLog ∧
      (2, respB) ∈ (runEvents reorderTrace).resolvedLog) := by
  have h := c1_correlationIds reorderTrace (by rfl)
  refine ⟨by rfl, ?_, ?_⟩
  · exact (h.2.2.1 1 respA).mpr ⟨by decide, msgA, by rfl, by rfl⟩
  · exact (h.2.2.1 2 respB).mpr ⟨by decide, msgB, by rfl, by rfl⟩

end TexasPipeline
